import Mathlib

/-!
Verification of the simulation core of a small 2D platformer (source: snake.js).

The JavaScript source is shallowly embedded: numbers become rationals,
JavaScript null/undefined become Option, strings used as tags become
inductive types, and object mutation becomes explicit state passing.
Math.sin and Math.random, which the core does not branch on, are modelled
as unspecified function parameters (sinF, wob).
-/

/-- A background grid cell kind: the source stores "wall" or "lava" strings
(or null, modelled by Option). -/
inductive Cell where
  | wall
  | lava
deriving DecidableEq, Repr

/-- Level status: the source stores "lost" or "won" (or null, modelled by Option). -/
inductive Status where
  | lost
  | won
deriving DecidableEq, Repr

/-- The tag strings passed around as collision kinds and actor types. -/
inductive Kind where
  | wall
  | lava
  | coin
  | player
deriving DecidableEq, Repr

def kindOfCell : Cell → Kind
  | Cell.wall => Kind.wall
  | Cell.lava => Kind.lava

/-- The source's Vector: an x / y pair of numbers. -/
structure Vec where
  x : ℚ
  y : ℚ
deriving DecidableEq, Repr

/-- Vector.prototype.plus: componentwise addition, returning a new Vector. -/
def Vec.plus (v w : Vec) : Vec := ⟨v.x + w.x, v.y + w.y⟩

/-- Vector.prototype.times: scaling by a factor, returning a new Vector. -/
def Vec.times (v : Vec) (factor : ℚ) : Vec := ⟨v.x * factor, v.y * factor⟩

/-- The pressed-state of the three tracked arrow keys. -/
structure Keys where
  left : Bool
  right : Bool
  up : Bool
deriving DecidableEq, Repr

/-- Variant-specific actor state: Player carries a speed, Lava carries a speed
and an optional remembered reset position (repeatPos), Coin carries its base
position and wobble phase. -/
inductive ActorData where
  | player (speed : Vec)
  | lava (speed : Vec) (repeatPos : Option Vec)
  | coin (basePos : Vec) (wobble : ℚ)
deriving DecidableEq, Repr

/-- A dynamic actor. JavaScript object identity (reference equality, used by
playerTouched's filter and actorAt's inequality test) is modelled by a
numeric id, distinct per actor created at level construction. -/
structure Actor where
  id : Nat
  pos : Vec
  size : Vec
  data : ActorData
deriving DecidableEq, Repr

/-- The actor's type tag ("player" / "lava" / "coin" in the source). -/
def Actor.type (a : Actor) : Kind :=
  match a.data with
  | ActorData.player _ => Kind.player
  | ActorData.lava _ _ => Kind.lava
  | ActorData.coin _ _ => Kind.coin

def isCoin (a : Actor) : Bool := a.type = Kind.coin

def isPlayer (a : Actor) : Bool := a.type = Kind.player

/-- The Level object's state: static grid plus mutable actor list, the
distinguished player reference, and the win/loss fields (null modelled
by Option). -/
structure LevelS where
  width : Nat
  height : Nat
  grid : List (List (Option Cell))
  actors : List Actor
  player : Option Actor
  status : Option Status
  finishDelay : Option ℚ
deriving DecidableEq, Repr

/-- Reading this.grid[y][x]; out-of-range access (undefined in JavaScript,
falsy like null) is modelled by the none default. -/
def cellAt (lv : LevelS) (y x : Nat) : Option Cell :=
  (lv.grid.getD y []).getD x none

/-- The inner for-x loop of obstacleAt, with the early return on the first
non-empty cell. -/
def scanRow (lv : LevelS) (y x xEnd : Nat) : Option Cell :=
  if _h : x < xEnd then
    match cellAt lv y x with
    | some f => some f
    | none => scanRow lv y (x + 1) xEnd
  else none
termination_by xEnd - x

/-- The outer for-y loop of obstacleAt; an early return from the inner loop
propagates out of the whole scan. -/
def scanRows (lv : LevelS) (y yEnd xStart xEnd : Nat) : Option Cell :=
  if _h : y < yEnd then
    match scanRow lv y xStart xEnd with
    | some f => some f
    | none => scanRows lv (y + 1) yEnd xStart xEnd
  else none
termination_by yEnd - y

/-- Level.prototype.obstacleAt: cell range covered by the rectangle via
floor/ceil, boundary policy (sides and top give wall, bottom gives lava),
then a row-major scan of the covered cells. -/
def obstacleAt (lv : LevelS) (pos size : Vec) : Option Cell :=
  let xStart : ℤ := ⌊pos.x⌋
  let xEnd : ℤ := ⌈pos.x + size.x⌉
  let yStart : ℤ := ⌊pos.y⌋
  let yEnd : ℤ := ⌈pos.y + size.y⌉
  if xStart < 0 ∨ xEnd > (lv.width : ℤ) ∨ yStart < 0 then
    some Cell.wall
  else if yEnd > (lv.height : ℤ) then
    some Cell.lava
  else
    scanRows lv yStart.toNat yEnd.toNat xStart.toNat xEnd.toNat

/-- Level.prototype.actorAt: first other actor whose box strictly overlaps
the given actor's box (reference inequality modelled by id inequality). -/
def actorAt (lv : LevelS) (a : Actor) : Option Actor :=
  lv.actors.find? (fun other =>
    decide (other.id ≠ a.id ∧
      a.pos.x + a.size.x > other.pos.x ∧
      a.pos.x < other.pos.x + other.size.x ∧
      a.pos.y + a.size.y > other.pos.y ∧
      a.pos.y < other.pos.y + other.size.y))

/-- Level.prototype.playerTouched. The second argument is the identity of the
touched actor (undefined, i.e. none, when called with an obstacle kind from
moveX / moveY). The coin branch filters the actor out by identity and sets
the won state when no coin-typed actor remains; note it does not test the
current status. -/
def playerTouched (lv : LevelS) (type : Kind) (actor : Option Nat) : LevelS :=
  if type = Kind.lava ∧ lv.status = none then
    { lv with status := some Status.lost, finishDelay := some 1 }
  else if type = Kind.coin then
    let actors' := lv.actors.filter (fun other => actor ≠ some other.id)
    if ¬ actors'.any isCoin then
      { lv with actors := actors', status := some Status.won, finishDelay := some 1 }
    else
      { lv with actors := actors' }
  else lv

/-- Level.prototype.isFinished. -/
def isFinished (lv : LevelS) : Bool :=
  decide (lv.status ≠ none) && (match lv.finishDelay with | some d => decide (d < 0) | none => false)

/-
Level construction from a plan (the Level constructor function).
-/

/-- The domain of the actorChars table. -/
def isActorChar (ch : Char) : Bool :=
  ch = '@' || ch = 'o' || ch = '=' || ch = '|' || ch = 'v'

/-- The background cell recorded for a character: null when an actor
constructor exists for it, else wall for x, lava for bang, else null. -/
def cellFor (ch : Char) : Option Cell :=
  if isActorChar ch then none
  else if ch = 'x' then some Cell.wall
  else if ch = '!' then some Cell.lava
  else none

/-- The actor constructed for a plan character at grid cell (x, y), carrying
its creation-order id. Player spawns half a square above its cell with size
0.8 by 1.5 and zero speed; Coin is offset by (0.2, 0.1) with size 0.6 and a
randomized wobble phase (the Math.random draw is the wobble argument); the
three lava variants are 1 by 1 with their variant speeds, the dripping v
variant remembering its spawn position. Only applied to actor characters. -/
def mkActor (ch : Char) (x y : Nat) (id : Nat) (wobble : ℚ) : Actor :=
  if ch = '@' then
    ⟨id, ⟨(x : ℚ), (y : ℚ) - 1/2⟩, ⟨4/5, 3/2⟩, ActorData.player ⟨0, 0⟩⟩
  else if ch = 'o' then
    ⟨id, ⟨(x : ℚ) + 1/5, (y : ℚ) + 1/10⟩, ⟨3/5, 3/5⟩,
      ActorData.coin ⟨(x : ℚ) + 1/5, (y : ℚ) + 1/10⟩ wobble⟩
  else if ch = '=' then
    ⟨id, ⟨(x : ℚ), (y : ℚ)⟩, ⟨1, 1⟩, ActorData.lava ⟨2, 0⟩ none⟩
  else if ch = '|' then
    ⟨id, ⟨(x : ℚ), (y : ℚ)⟩, ⟨1, 1⟩, ActorData.lava ⟨0, 2⟩ none⟩
  else
    ⟨id, ⟨(x : ℚ), (y : ℚ)⟩, ⟨1, 1⟩, ActorData.lava ⟨0, 3⟩ (some ⟨(x : ℚ), (y : ℚ)⟩)⟩

/-- The character of the plan at row y, column x; reading past a row's end
(undefined in JavaScript) behaves like empty space for both the actor table
and the background cases, so the space default is faithful. -/
def planChar (plan : List String) (y x : Nat) : Char :=
  ((plan.getD y "").toList).getD x ' '

/-- The actor characters of the plan with their coordinates, in the row-major
order in which the constructor's loops push them. -/
def planCoords (plan : List String) (width : Nat) : List (Char × Nat × Nat) :=
  (List.range plan.length).flatMap (fun y =>
    (List.range width).filterMap (fun x =>
      if isActorChar (planChar plan y x) then some (planChar plan y x, x, y) else none))

/-- The Level constructor. Ids are assigned in push order (so they model
distinct object references); wob is the sequence of Math.random draws for
coin wobble phases, indexed by creation order. The player field is the
first actor of player type, none (undefined) when the plan has no at-sign:
the source performs no validation. -/
def mkLevel (wob : Nat → ℚ) (plan : List String) : LevelS :=
  let width := (plan.headD "").length
  let actors := (planCoords plan width).enum.map
    (fun p => mkActor p.2.1 p.2.2.1 p.2.2.2 p.1 (wob p.1))
  { width := width
    height := plan.length
    grid := (List.range plan.length).map (fun y =>
      (List.range width).map (fun x => cellFor (planChar plan y x)))
    actors := actors
    player := (actors.filter isPlayer).head?
    status := none
    finishDelay := none }

/-
Actor motion (the act methods and the player's moveX / moveY).
-/

/-- The player's per-axis state while its methods run: its pos, size and
speed fields (the id stays fixed and is threaded separately). -/
structure PState where
  pos : Vec
  size : Vec
  speed : Vec
deriving DecidableEq, Repr

def playerXSpeed : ℚ := 7
def gravity : ℚ := 30
def jumpSpeed : ℚ := 17
def maxStep : ℚ := 1/20
def wobbleSpeed : ℚ := 8
def wobbleDist : ℚ := 7/100

/-- Player.prototype.moveX: horizontal speed rebuilt from the held keys, a
tentative position, and either a playerTouched call with the obstacle kind
(position unchanged) or a position update. -/
def moveX (p : PState) (step : ℚ) (lv : LevelS) (keys : Keys) : PState × LevelS :=
  let sx0 : ℚ := 0
  let sx1 : ℚ := if keys.left then sx0 - playerXSpeed else sx0
  let sx2 : ℚ := if keys.right then sx1 + playerXSpeed else sx1
  let motion : Vec := ⟨sx2 * step, 0⟩
  let newPos := p.pos.plus motion
  match obstacleAt lv newPos p.size with
  | some ob => ({ p with speed := ⟨sx2, p.speed.y⟩ }, playerTouched lv (kindOfCell ob) none)
  | none => ({ p with speed := ⟨sx2, p.speed.y⟩, pos := newPos }, lv)

/-- Player.prototype.moveY: gravity is added to the vertical speed, then the
tentative position is checked; on an obstacle playerTouched fires and the
vertical speed becomes the upward jump speed exactly when the up key is held
and the post-gravity speed is positive (downward), else zero; with no
obstacle the position updates and the speed keeps its post-gravity value. -/
def moveY (p : PState) (step : ℚ) (lv : LevelS) (keys : Keys) : PState × LevelS :=
  let sy : ℚ := p.speed.y + step * gravity
  let motion : Vec := ⟨0, sy * step⟩
  let newPos := p.pos.plus motion
  match obstacleAt lv newPos p.size with
  | some ob =>
      let lv' := playerTouched lv (kindOfCell ob) none
      let sy' : ℚ := if keys.up ∧ sy > 0 then -jumpSpeed else 0
      ({ p with speed := ⟨p.speed.x, sy'⟩ }, lv')
  | none => ({ p with speed := ⟨p.speed.x, sy⟩, pos := newPos }, lv)

/-- Player.prototype.act: both axes, then the overlap check against the other
actors, then the cosmetic sinking animation when the level is lost. -/
def playerAct (id : Nat) (p : PState) (step : ℚ) (lv : LevelS) (keys : Keys) :
    PState × LevelS :=
  let r1 := moveX p step lv keys
  let r2 := moveY r1.1 step r1.2 keys
  let p2 := r2.1
  let selfA : Actor := ⟨id, p2.pos, p2.size, ActorData.player p2.speed⟩
  let lv3 := match actorAt r2.2 selfA with
    | some other => playerTouched r2.2 other.type (some other.id)
    | none => r2.2
  if lv3.status = some Status.lost then
    ({ p2 with pos := ⟨p2.pos.x, p2.pos.y + step⟩, size := ⟨p2.size.x, p2.size.y - step⟩ }, lv3)
  else (p2, lv3)

/-- Lava.prototype.act, returning the lava's new pos and speed: unobstructed
motion to the tentative position, else a teleport to the remembered reset
position, else a bounce (speed scaled by minus one, position kept). -/
def lavaAct (pos size speed : Vec) (repeatPos : Option Vec) (step : ℚ) (lv : LevelS) :
    Vec × Vec :=
  let newPos := pos.plus (speed.times step)
  if (obstacleAt lv newPos size).isNone then (newPos, speed)
  else
    match repeatPos with
    | some rp => (rp, speed)
    | none => (pos, speed.times (-1))

/-- Coin.prototype.act, returning the coin's new pos and wobble phase; the
sine function is the sinF parameter (Math.sin is not rational-valued). -/
def coinAct (sinF : ℚ → ℚ) (basePos : Vec) (wobble : ℚ) (step : ℚ) : Vec × ℚ :=
  let wobble' := wobble + step * wobbleSpeed
  let wobblePos := sinF wobble' * wobbleDist
  (basePos.plus ⟨0, wobblePos⟩, wobble')

/-- Replacing the actor with the given id by its updated state, in the actor
list and in the aliased player reference (in the source both point at the
same mutable object). -/
def setActor (lv : LevelS) (id : Nat) (a : Actor) : LevelS :=
  { lv with
    actors := lv.actors.map (fun b => if b.id = id then a else b)
    player := lv.player.map (fun b => if b.id = id then a else b) }

/-- One actor's act call inside the forEach of animate, dispatched on the
actor's variant; the actor's own field updates are written back by id. -/
def actOne (sinF : ℚ → ℚ) (lv : LevelS) (a : Actor) (step : ℚ) (keys : Keys) : LevelS :=
  match a.data with
  | ActorData.player speed =>
      let r := playerAct a.id ⟨a.pos, a.size, speed⟩ step lv keys
      setActor r.2 a.id ⟨a.id, r.1.pos, r.1.size, ActorData.player r.1.speed⟩
  | ActorData.lava speed rp =>
      let r := lavaAct a.pos a.size speed rp step lv
      setActor lv a.id ⟨a.id, r.1, a.size, ActorData.lava r.2 rp⟩
  | ActorData.coin basePos wobble =>
      let r := coinAct sinF basePos wobble step
      setActor lv a.id ⟨a.id, r.1, a.size, ActorData.coin basePos r.2⟩

/-- The forEach over the actors inside one sub-step of animate: the iteration
runs over the snapshot of the actor array taken when forEach starts, while
the level state (including reassignments of the actors array) threads
through. -/
def stepAll (sinF : ℚ → ℚ) (lv : LevelS) (step : ℚ) (keys : Keys) : LevelS :=
  lv.actors.foldl (fun l a => actOne sinF l a step keys) lv

/-- The while loop of Level.prototype.animate: while time remains, take a
sub-step of at most maxStep and give every actor a chance to move. -/
def animateLoop (sinF : ℚ → ℚ) (lv : LevelS) (keys : Keys) (step : ℚ) : LevelS :=
  if 0 < step then
    animateLoop sinF (stepAll sinF lv (min step maxStep) keys) keys (step - min step maxStep)
  else lv
termination_by (⌈step / maxStep⌉).toNat
decreasing_by
  rename_i h
  have hm : (0 : ℚ) < maxStep := by norm_num [maxStep]
  rcases le_or_lt step maxStep with hle | hlt
  · have h1 : step - min step maxStep = 0 := by
      rw [min_eq_left hle]; ring
    have h2 : (0 : ℚ) < step / maxStep := div_pos h hm
    have h3 : (1 : ℤ) ≤ ⌈step / maxStep⌉ := Int.ceil_pos.mpr h2
    rw [h1]
    simp only [zero_div, Int.ceil_zero, Int.toNat_zero]
    omega
  · have h1 : step - min step maxStep = step - maxStep := by
      rw [min_eq_right (le_of_lt hlt)]
    have h2 : (step - maxStep) / maxStep = step / maxStep - 1 := by
      field_simp
    have h3 : ⌈(step - maxStep) / maxStep⌉ = ⌈step / maxStep⌉ - 1 := by
      rw [h2]
      exact_mod_cast Int.ceil_sub_int (step / maxStep) 1
    have h4 : (1 : ℚ) < step / maxStep := (one_lt_div hm).mpr hlt
    have h5 : (1 : ℤ) < ⌈step / maxStep⌉ := by
      have : ((1 : ℤ) : ℚ) < step / maxStep := by exact_mod_cast h4
      exact Int.lt_ceil.mpr this
    rw [h1, h3]
    omega

/-- Level.prototype.animate: the finishDelay countdown when the status is
set, then the sub-step loop. -/
def animate (sinF : ℚ → ℚ) (lv : LevelS) (step : ℚ) (keys : Keys) : LevelS :=
  let lv1 := if lv.status ≠ none then
    { lv with finishDelay := lv.finishDelay.map (fun d => d - step) } else lv
  animateLoop sinF lv1 keys step

/-- The list of sub-step sizes the animate loop takes for a given time step:
each is the minimum of the remaining time and maxStep. -/
def subSteps (step : ℚ) : List ℚ :=
  if 0 < step then min step maxStep :: subSteps (step - min step maxStep) else []
termination_by (⌈step / maxStep⌉).toNat
decreasing_by
  rename_i h
  have hm : (0 : ℚ) < maxStep := by norm_num [maxStep]
  rcases le_or_lt step maxStep with hle | hlt
  · have h1 : step - min step maxStep = 0 := by
      rw [min_eq_left hle]; ring
    have h3 : (1 : ℤ) ≤ ⌈step / maxStep⌉ := Int.ceil_pos.mpr (div_pos h hm)
    rw [h1]
    simp only [zero_div, Int.ceil_zero, Int.toNat_zero]
    omega
  · have h1 : step - min step maxStep = step - maxStep := by
      rw [min_eq_right (le_of_lt hlt)]
    have h3 : ⌈(step - maxStep) / maxStep⌉ = ⌈step / maxStep⌉ - 1 := by
      have h2 : (step - maxStep) / maxStep = step / maxStep - 1 := by field_simp
      rw [h2]
      exact_mod_cast Int.ceil_sub_int (step / maxStep) 1
    have h5 : (1 : ℤ) < ⌈step / maxStep⌉ := by
      have h4 : ((1 : ℤ) : ℚ) < step / maxStep := by
        exact_mod_cast (one_lt_div hm).mpr hlt
      exact Int.lt_ceil.mpr h4
    rw [h1, h3]
    omega

/-
Supporting lemmas about the sub-step list of the animate loop.
-/

lemma maxStep_pos : (0 : ℚ) < maxStep := by norm_num [maxStep]

lemma step_ceil_succ (step : ℚ) (h : 0 < step) :
    (⌈step / maxStep⌉).toNat = (⌈(step - min step maxStep) / maxStep⌉).toNat + 1 := by
  rcases le_or_lt step maxStep with hle | hlt
  · have h1 : step - min step maxStep = 0 := by rw [min_eq_left hle]; ring
    have hp : (1 : ℤ) ≤ ⌈step / maxStep⌉ := Int.ceil_pos.mpr (div_pos h maxStep_pos)
    have hu : ⌈step / maxStep⌉ ≤ 1 := by
      apply Int.ceil_le.mpr
      push_cast
      rw [div_le_one maxStep_pos]
      exact hle
    rw [h1]
    simp only [zero_div, Int.ceil_zero, Int.toNat_zero]
    omega
  · have h1 : step - min step maxStep = step - maxStep := by rw [min_eq_right hlt.le]
    have h2 : ⌈(step - maxStep) / maxStep⌉ = ⌈step / maxStep⌉ - 1 := by
      have hd : (step - maxStep) / maxStep = step / maxStep - 1 := by
        rw [sub_div, div_self (ne_of_gt maxStep_pos)]
      rw [hd]
      exact_mod_cast Int.ceil_sub_int (step / maxStep) 1
    have h5 : (1 : ℤ) < ⌈step / maxStep⌉ := by
      apply Int.lt_ceil.mpr
      push_cast
      exact (one_lt_div maxStep_pos).mpr hlt
    rw [h1, h2]
    omega

lemma subSteps_length (step : ℚ) : (subSteps step).length = (⌈step / maxStep⌉).toNat := by
  induction step using subSteps.induct with
  | case1 step hpos ih =>
      rw [subSteps, if_pos hpos, List.length_cons, ih, step_ceil_succ step hpos]
  | case2 step hpos =>
      rw [subSteps, if_neg hpos, List.length_nil]
      have h0 : step ≤ 0 := not_lt.mp hpos
      have h2 : ⌈step / maxStep⌉ ≤ 0 := by
        apply Int.ceil_le.mpr
        push_cast
        exact div_nonpos_of_nonpos_of_nonneg h0 maxStep_pos.le
      omega

lemma subSteps_sum (step : ℚ) : 0 ≤ step → (subSteps step).sum = step := by
  induction step using subSteps.induct with
  | case1 step hpos ih =>
      intro _
      rw [subSteps, if_pos hpos, List.sum_cons,
        ih (sub_nonneg.mpr (min_le_left step maxStep))]
      ring
  | case2 step hpos =>
      intro h0
      rw [subSteps, if_neg hpos, List.sum_nil]
      linarith [not_lt.mp hpos]

lemma subSteps_mem (step : ℚ) : ∀ s ∈ subSteps step, 0 < s ∧ s ≤ maxStep := by
  induction step using subSteps.induct with
  | case1 step hpos ih =>
      intro s hs
      rw [subSteps, if_pos hpos] at hs
      rcases List.mem_cons.mp hs with h | h
      · subst h
        exact ⟨lt_min hpos maxStep_pos, min_le_right step maxStep⟩
      · exact ih s h
  | case2 step hpos =>
      intro s hs
      rw [subSteps, if_neg hpos] at hs
      simp at hs

lemma animateLoop_eq_foldl (sinF : ℚ → ℚ) (keys : Keys) (step : ℚ) :
    ∀ lv, animateLoop sinF lv keys step =
      (subSteps step).foldl (fun l s => stepAll sinF l s keys) lv := by
  induction step using subSteps.induct with
  | case1 step hpos ih =>
      intro lv
      rw [animateLoop, if_pos hpos, subSteps, if_pos hpos, List.foldl_cons]
      exact ih (stepAll sinF lv (min step maxStep) keys)
  | case2 step hpos =>
      intro lv
      rw [animateLoop, if_neg hpos, subSteps, if_neg hpos, List.foldl_nil]

/-- C10: for every finite non-negative time step, animate terminates with a
sub-step loop that runs exactly ceil of step over maxStep iterations, each
sub-step equal to the minimum of the remaining time and maxStep, the
sub-steps summing exactly to the time step; each iteration gives every actor
of the current snapshot one act call in list order (stepAll). -/
theorem animate_substep_schedule (sinF : ℚ → ℚ) (lv : LevelS) (keys : Keys) (step : ℚ)
    (h : 0 ≤ step) :
    animate sinF lv step keys =
      (subSteps step).foldl (fun l s => stepAll sinF l s keys)
        (if lv.status ≠ none then
          { lv with finishDelay := lv.finishDelay.map (fun d => d - step) } else lv) ∧
    (subSteps step).length = (⌈step / maxStep⌉).toNat ∧
    (subSteps step).sum = step ∧
    (∀ s ∈ subSteps step, 0 < s ∧ s ≤ maxStep) := by
  refine ⟨?_, subSteps_length step, subSteps_sum step h, subSteps_mem step⟩
  rw [animate]
  exact animateLoop_eq_foldl sinF keys step _

/-- Witness for C10 at a concrete level, key state and time step. -/
theorem animate_substep_schedule_witness :
    (0 : ℚ) ≤ 1/10 ∧
    (animate (fun _ => 0) (mkLevel (fun _ => 0) ["@"]) (1/10) ⟨false, false, false⟩ =
      (subSteps (1/10)).foldl (fun l s => stepAll (fun _ => 0) l s ⟨false, false, false⟩)
        (if (mkLevel (fun _ => 0) ["@"]).status ≠ none then
          { (mkLevel (fun _ => 0) ["@"]) with
              finishDelay := (mkLevel (fun _ => 0) ["@"]).finishDelay.map (fun d => d - 1/10) }
          else (mkLevel (fun _ => 0) ["@"])) ∧
    (subSteps (1/10 : ℚ)).length = (⌈(1/10 : ℚ) / maxStep⌉).toNat ∧
    (subSteps (1/10 : ℚ)).sum = 1/10 ∧
    (∀ s ∈ subSteps (1/10 : ℚ), 0 < s ∧ s ≤ maxStep)) :=
  ⟨by norm_num,
    animate_substep_schedule (fun _ => 0) (mkLevel (fun _ => 0) ["@"]) ⟨false, false, false⟩
      (1/10) (by norm_num)⟩

/-
Supporting lemmas relating the nested scan loops of obstacleAt to a
row-major enumeration of the covered cells.
-/

/-- The half-open cell range covered by a rectangle, enumerated in row-major
order (rows outermost), as the spec describes it. -/
def coveredCells (ys ye xs xe : Nat) : List (Nat × Nat) :=
  (List.range' ys (ye - ys)).flatMap (fun y =>
    (List.range' xs (xe - xs)).map (fun x => (y, x)))

lemma scanRow_aux (lv : LevelS) (y : Nat) :
    ∀ (n x : Nat), scanRow lv y x (x + n) =
      (List.range' x n).findSome? (fun xx => cellAt lv y xx) := by
  intro n
  induction n with
  | zero =>
      intro x
      rw [scanRow, dif_neg (by omega)]
      simp
  | succ n ih =>
      intro x
      rw [scanRow, dif_pos (by omega : x < x + (n + 1)), List.range'_succ,
        List.findSome?_cons]
      have hstep : x + (n + 1) = (x + 1) + n := by omega
      cases hcell : cellAt lv y x with
      | some f => simp
      | none =>
          simp only
          rw [hstep]
          exact ih (x + 1)

lemma scanRow_eq (lv : LevelS) (y x xEnd : Nat) :
    scanRow lv y x xEnd =
      (List.range' x (xEnd - x)).findSome? (fun xx => cellAt lv y xx) := by
  rcases le_or_lt x xEnd with h | h
  · obtain ⟨n, rfl⟩ : ∃ n, xEnd = x + n := ⟨xEnd - x, by omega⟩
    rw [Nat.add_sub_cancel_left]
    exact scanRow_aux lv y n x
  · rw [scanRow, dif_neg (by omega), Nat.sub_eq_zero_of_le h.le]
    simp

lemma scanRows_aux (lv : LevelS) (xStart xEnd : Nat) :
    ∀ (n y : Nat), scanRows lv y (y + n) xStart xEnd =
      (List.range' y n).findSome? (fun yy => scanRow lv yy xStart xEnd) := by
  intro n
  induction n with
  | zero =>
      intro y
      rw [scanRows, dif_neg (by omega)]
      simp
  | succ n ih =>
      intro y
      rw [scanRows, dif_pos (by omega : y < y + (n + 1)), List.range'_succ,
        List.findSome?_cons]
      have hstep : y + (n + 1) = (y + 1) + n := by omega
      cases hrow : scanRow lv y xStart xEnd with
      | some f => simp
      | none =>
          simp only
          rw [hstep]
          exact ih (y + 1)

lemma scanRows_eq (lv : LevelS) (y yEnd xStart xEnd : Nat) :
    scanRows lv y yEnd xStart xEnd =
      (List.range' y (yEnd - y)).findSome? (fun yy => scanRow lv yy xStart xEnd) := by
  rcases le_or_lt y yEnd with h | h
  · obtain ⟨n, rfl⟩ : ∃ n, yEnd = y + n := ⟨yEnd - y, by omega⟩
    rw [Nat.add_sub_cancel_left]
    exact scanRows_aux lv xStart xEnd n y
  · rw [scanRows, dif_neg (by omega), Nat.sub_eq_zero_of_le h.le]
    simp

lemma coveredCells_findSome? (lv : LevelS) (ys ye xs xe : Nat) :
    (coveredCells ys ye xs xe).findSome? (fun yx => cellAt lv yx.1 yx.2) =
      (List.range' ys (ye - ys)).findSome? (fun y =>
        (List.range' xs (xe - xs)).findSome? (fun x => cellAt lv y x)) := by
  unfold coveredCells
  induction List.range' ys (ye - ys) with
  | nil => simp
  | cons y rest ih =>
      rw [List.flatMap_cons, List.findSome?_append, ih, List.findSome?_cons,
        List.findSome?_map]
      have hcomp : ((fun yx : Nat × Nat => cellAt lv yx.1 yx.2) ∘ fun x => (y, x)) =
          fun x => cellAt lv y x := rfl
      rw [hcomp]
      cases h : List.findSome? (fun x => cellAt lv y x) (List.range' xs (xe - xs)) with
      | some f => simp
      | none => simp

/-- Boundary helper: a rectangle violating the side or top bounds gets wall. -/
lemma obstacleAt_wall_of (lv : LevelS) (pos size : Vec)
    (h : ⌊pos.x⌋ < 0 ∨ ⌈pos.x + size.x⌉ > (lv.width : ℤ) ∨ ⌊pos.y⌋ < 0) :
    obstacleAt lv pos size = some Cell.wall := by
  simp only [obstacleAt]
  rw [if_pos h]

/-- Boundary helper: a rectangle inside the side and top bounds whose bottom
exits below the height gets lava. -/
lemma obstacleAt_lava_of (lv : LevelS) (pos size : Vec)
    (h1 : 0 ≤ ⌊pos.x⌋) (h2 : ⌈pos.x + size.x⌉ ≤ (lv.width : ℤ))
    (h3 : 0 ≤ ⌊pos.y⌋) (h4 : (lv.height : ℤ) < ⌈pos.y + size.y⌉) :
    obstacleAt lv pos size = some Cell.lava := by
  simp only [obstacleAt]
  rw [if_neg (by push_neg; exact ⟨h1, h2, h3⟩), if_pos h4]

/-- Boundary helper: a rectangle entirely inside the bounds falls through to
the cell scan. -/
lemma obstacleAt_eq_scanRows (lv : LevelS) (pos size : Vec)
    (h1 : 0 ≤ ⌊pos.x⌋) (h2 : ⌈pos.x + size.x⌉ ≤ (lv.width : ℤ))
    (h3 : 0 ≤ ⌊pos.y⌋) (h4 : ⌈pos.y + size.y⌉ ≤ (lv.height : ℤ)) :
    obstacleAt lv pos size =
      scanRows lv (⌊pos.y⌋).toNat (⌈pos.y + size.y⌉).toNat
        (⌊pos.x⌋).toNat (⌈pos.x + size.x⌉).toNat := by
  simp only [obstacleAt]
  rw [if_neg (by push_neg; exact ⟨h1, h2, h3⟩), if_neg (not_lt.mpr h4)]

/-- C7: for a rectangle whose covered cell range (floor of the start edges,
ceiling of the end edges) lies entirely within the grid, obstacleAt equals
the first non-empty cell of the covered cells enumerated in row-major order,
and in particular returns none when every covered cell is empty. -/
theorem obstacleAt_row_major (lv : LevelS) (pos size : Vec)
    (h1 : 0 ≤ ⌊pos.x⌋) (h2 : ⌈pos.x + size.x⌉ ≤ (lv.width : ℤ))
    (h3 : 0 ≤ ⌊pos.y⌋) (h4 : ⌈pos.y + size.y⌉ ≤ (lv.height : ℤ)) :
    obstacleAt lv pos size =
      (coveredCells (⌊pos.y⌋).toNat (⌈pos.y + size.y⌉).toNat
          (⌊pos.x⌋).toNat (⌈pos.x + size.x⌉).toNat).findSome?
        (fun yx => cellAt lv yx.1 yx.2) ∧
    ((∀ yx ∈ coveredCells (⌊pos.y⌋).toNat (⌈pos.y + size.y⌉).toNat
          (⌊pos.x⌋).toNat (⌈pos.x + size.x⌉).toNat, cellAt lv yx.1 yx.2 = none) →
      obstacleAt lv pos size = none) := by
  have hmain : obstacleAt lv pos size =
      (coveredCells (⌊pos.y⌋).toNat (⌈pos.y + size.y⌉).toNat
          (⌊pos.x⌋).toNat (⌈pos.x + size.x⌉).toNat).findSome?
        (fun yx => cellAt lv yx.1 yx.2) := by
    simp only [obstacleAt]
    rw [if_neg (by push_neg; exact ⟨h1, h2, h3⟩), if_neg (not_lt.mpr h4),
      scanRows_eq, coveredCells_findSome?]
    simp only [scanRow_eq]
  refine ⟨hmain, fun hall => ?_⟩
  rw [hmain]
  exact List.findSome?_eq_none_iff.mpr hall

/-
C7 witness level and claim theorems for the obstacle boundary policy.
-/

/-- Witness for C7 at a concrete level: a one-row level with a wall cell and
an empty cell, queried over the empty cell. -/
theorem obstacleAt_row_major_witness :
    obstacleAt (mkLevel (fun _ => 0) ["x "]) ⟨1, 0⟩ ⟨1, 1⟩ =
      (coveredCells (⌊((⟨1, 0⟩ : Vec)).y⌋).toNat
          (⌈((⟨1, 0⟩ : Vec)).y + ((⟨1, 1⟩ : Vec)).y⌉).toNat
          (⌊((⟨1, 0⟩ : Vec)).x⌋).toNat
          (⌈((⟨1, 0⟩ : Vec)).x + ((⟨1, 1⟩ : Vec)).x⌉).toNat).findSome?
        (fun yx => cellAt (mkLevel (fun _ => 0) ["x "]) yx.1 yx.2) ∧
    ((∀ yx ∈ coveredCells (⌊((⟨1, 0⟩ : Vec)).y⌋).toNat
          (⌈((⟨1, 0⟩ : Vec)).y + ((⟨1, 1⟩ : Vec)).y⌉).toNat
          (⌊((⟨1, 0⟩ : Vec)).x⌋).toNat
          (⌈((⟨1, 0⟩ : Vec)).x + ((⟨1, 1⟩ : Vec)).x⌉).toNat,
        cellAt (mkLevel (fun _ => 0) ["x "]) yx.1 yx.2 = none) →
      obstacleAt (mkLevel (fun _ => 0) ["x "]) ⟨1, 0⟩ ⟨1, 1⟩ = none) :=
  obstacleAt_row_major (mkLevel (fun _ => 0) ["x "]) ⟨1, 0⟩ ⟨1, 1⟩
    (by show (0 : ℤ) ≤ ⌊(1 : ℚ)⌋; norm_num)
    (by show ⌈(1 : ℚ) + 1⌉ ≤ ((2 : ℕ) : ℤ); norm_num)
    (by show (0 : ℤ) ≤ ⌊(0 : ℚ)⌋; norm_num)
    (by show ⌈(0 : ℚ) + 1⌉ ≤ ((1 : ℕ) : ℤ); norm_num)

/-- C2 counterexample: a rectangle whose vertical range exceeds the height
and which also exits the left boundary gets wall, not lava, so the claim's
universal lava statement for bottom-exceeding rectangles is false. -/
theorem obstacleAt_bottom_counterexample :
    ((mkLevel (fun _ => 0) ["  ", "  "]).height : ℤ) <
      ⌈((⟨-1, 1⟩ : Vec)).y + ((⟨1, 2⟩ : Vec)).y⌉ ∧
    obstacleAt (mkLevel (fun _ => 0) ["  ", "  "]) ⟨-1, 1⟩ ⟨1, 2⟩ = some Cell.wall ∧
    obstacleAt (mkLevel (fun _ => 0) ["  ", "  "]) ⟨-1, 1⟩ ⟨1, 2⟩ ≠ some Cell.lava := by
  have hw : obstacleAt (mkLevel (fun _ => 0) ["  ", "  "]) ⟨-1, 1⟩ ⟨1, 2⟩ = some Cell.wall :=
    obstacleAt_wall_of _ _ _ (Or.inl (by show ⌊(-1 : ℚ)⌋ < 0; norm_num))
  refine ⟨?_, hw, ?_⟩
  · show ((2 : ℕ) : ℤ) < ⌈(1 : ℚ) + 2⌉
    norm_num
  · rw [hw]
    simp

/-- C2 (amended): the side and top out-of-bounds checks are evaluated before
the bottom check: any rectangle violating the side or top bounds returns
wall, even when its bottom also exits below the height; a rectangle within
the side and top bounds whose bottom exits below the height returns lava. -/
theorem obstacleAt_boundary_precedence (lv : LevelS) (pos size : Vec) :
    (⌊pos.x⌋ < 0 ∨ ⌈pos.x + size.x⌉ > (lv.width : ℤ) ∨ ⌊pos.y⌋ < 0 →
      obstacleAt lv pos size = some Cell.wall) ∧
    (0 ≤ ⌊pos.x⌋ → ⌈pos.x + size.x⌉ ≤ (lv.width : ℤ) → 0 ≤ ⌊pos.y⌋ →
      (lv.height : ℤ) < ⌈pos.y + size.y⌉ →
      obstacleAt lv pos size = some Cell.lava) := by
  constructor
  · intro h
    simp only [obstacleAt]
    rw [if_pos h]
  · intro h1 h2 h3 h4
    simp only [obstacleAt]
    rw [if_neg (by push_neg; exact ⟨h1, h2, h3⟩), if_pos h4]

/-- Witness for C2 (amended): the wall case at a both-left-and-bottom
violating rectangle, and the lava case at a bottom-only violating one. -/
theorem obstacleAt_boundary_precedence_witness :
    obstacleAt (mkLevel (fun _ => 0) ["  ", "  "]) ⟨-1, 1⟩ ⟨1, 2⟩ = some Cell.wall ∧
    obstacleAt (mkLevel (fun _ => 0) ["  ", "  "]) ⟨0, 1⟩ ⟨1, 2⟩ = some Cell.lava :=
  ⟨(obstacleAt_boundary_precedence (mkLevel (fun _ => 0) ["  ", "  "]) ⟨-1, 1⟩ ⟨1, 2⟩).1
      (Or.inl (by show ⌊(-1 : ℚ)⌋ < 0; norm_num)),
   (obstacleAt_boundary_precedence (mkLevel (fun _ => 0) ["  ", "  "]) ⟨0, 1⟩ ⟨1, 2⟩).2
      (by show (0 : ℤ) ≤ ⌊(0 : ℚ)⌋; norm_num)
      (by show ⌈(0 : ℚ) + 1⌉ ≤ ((2 : ℕ) : ℤ); norm_num)
      (by show (0 : ℤ) ≤ ⌊(1 : ℚ)⌋; norm_num)
      (by show ((2 : ℕ) : ℤ) < ⌈(1 : ℚ) + 2⌉; norm_num)⟩

/-- C4: playerTouched with kind lava sets status to lost and finishDelay to 1
exactly when status is still null; when status is already set the call
returns the level completely unchanged (status, finishDelay and actors). -/
theorem playerTouched_lava_write_once (lv : LevelS) (a : Option Nat) :
    (lv.status = none →
      playerTouched lv Kind.lava a =
        { lv with status := some Status.lost, finishDelay := some 1 }) ∧
    (lv.status ≠ none → playerTouched lv Kind.lava a = lv) := by
  constructor
  · intro h
    rw [playerTouched, if_pos ⟨rfl, h⟩]
  · intro h
    rw [playerTouched, if_neg (by simp [h]), if_neg (by simp)]

/-- Witness for C4: the lost transition on a fresh level and the no-op on the
already-lost level. -/
theorem playerTouched_lava_write_once_witness :
    (playerTouched (mkLevel (fun _ => 0) ["@o"]) Kind.lava none =
      { mkLevel (fun _ => 0) ["@o"] with
          status := some Status.lost, finishDelay := some 1 }) ∧
    (playerTouched (playerTouched (mkLevel (fun _ => 0) ["@o"]) Kind.lava none)
        Kind.lava none =
      playerTouched (mkLevel (fun _ => 0) ["@o"]) Kind.lava none) :=
  ⟨(playerTouched_lava_write_once (mkLevel (fun _ => 0) ["@o"]) none).1 (by decide),
   (playerTouched_lava_write_once
      (playerTouched (mkLevel (fun _ => 0) ["@o"]) Kind.lava none) none).2 (by decide)⟩

/-- C5: in moveY the vertical speed first gains gravity times step; with the
tentative position, an obstacle leaves the position unchanged, fires
playerTouched with the obstacle kind, and sets the vertical speed to the
negated jump speed exactly when the up key is held and the post-gravity
speed is positive, else to zero; with no obstacle the position becomes the
tentative position and the speed keeps its post-gravity value. -/
theorem moveY_gravity_jump (p : PState) (step : ℚ) (lv : LevelS) (keys : Keys) :
    (∀ k, obstacleAt lv (p.pos.plus ⟨0, (p.speed.y + step * gravity) * step⟩) p.size =
        some k →
      moveY p step lv keys =
        ({ p with speed := ⟨p.speed.x,
            if keys.up ∧ p.speed.y + step * gravity > 0 then -jumpSpeed else 0⟩ },
          playerTouched lv (kindOfCell k) none)) ∧
    (obstacleAt lv (p.pos.plus ⟨0, (p.speed.y + step * gravity) * step⟩) p.size = none →
      moveY p step lv keys =
        ({ p with
            pos := p.pos.plus ⟨0, (p.speed.y + step * gravity) * step⟩
            speed := ⟨p.speed.x, p.speed.y + step * gravity⟩ }, lv)) := by
  constructor
  · intro k hk
    simp only [moveY]
    rw [hk]
  · intro h
    simp only [moveY]
    rw [h]

/-- Witness for C5: a player over the bottom boundary, so the tentative
position is obstructed by boundary lava; up is not held, so the vertical
speed zeroes. -/
theorem moveY_gravity_jump_witness :
    moveY ⟨⟨0, 0⟩, ⟨1, 1⟩, ⟨0, 0⟩⟩ 1 (mkLevel (fun _ => 0) [" "]) ⟨false, false, false⟩ =
      ({ (⟨⟨0, 0⟩, ⟨1, 1⟩, ⟨0, 0⟩⟩ : PState) with
          speed := ⟨(⟨⟨0, 0⟩, ⟨1, 1⟩, ⟨0, 0⟩⟩ : PState).speed.x,
            if (⟨false, false, false⟩ : Keys).up ∧
                (⟨⟨0, 0⟩, ⟨1, 1⟩, ⟨0, 0⟩⟩ : PState).speed.y + 1 * gravity > 0 then
              -jumpSpeed else 0⟩ },
        playerTouched (mkLevel (fun _ => 0) [" "]) (kindOfCell Cell.lava) none) :=
  (moveY_gravity_jump ⟨⟨0, 0⟩, ⟨1, 1⟩, ⟨0, 0⟩⟩ 1 (mkLevel (fun _ => 0) [" "])
    ⟨false, false, false⟩).1 Cell.lava
    (obstacleAt_lava_of _ _ _
      (by show (0 : ℤ) ≤ ⌊(0 : ℚ) + 0⌋; norm_num)
      (by show ⌈((0 : ℚ) + 0) + 1⌉ ≤ ((1 : ℕ) : ℤ); norm_num)
      (by show (0 : ℤ) ≤ ⌊(0 : ℚ) + (0 + 1 * gravity) * 1⌋; norm_num [gravity])
      (by show ((1 : ℕ) : ℤ) < ⌈((0 : ℚ) + (0 + 1 * gravity) * 1) + 1⌉; norm_num [gravity]))

/-- C6: lava motion: an unobstructed tentative position is taken with speed
unchanged; an obstructed one teleports back to the remembered reset position
(speed unchanged) when one exists, else keeps the position and inverts the
speed on both axes. -/
theorem lavaAct_cases (pos size speed : Vec) (rp : Option Vec) (step : ℚ) (lv : LevelS) :
    (obstacleAt lv (pos.plus (speed.times step)) size = none →
      lavaAct pos size speed rp step lv = (pos.plus (speed.times step), speed)) ∧
    (obstacleAt lv (pos.plus (speed.times step)) size ≠ none →
      (∀ r, rp = some r → lavaAct pos size speed rp step lv = (r, speed)) ∧
      (rp = none → lavaAct pos size speed rp step lv = (pos, ⟨-speed.x, -speed.y⟩))) := by
  constructor
  · intro h
    simp [lavaAct, h]
  · intro h
    rcases hob : obstacleAt lv (pos.plus (speed.times step)) size with _ | k
    · exact absurd hob h
    constructor
    · intro r hr
      subst hr
      simp [lavaAct, hob]
    · intro hr
      subst hr
      simp only [lavaAct, hob, Option.isNone_some, Bool.false_eq_true, if_false]
      simp [Vec.times, mul_neg_one]

/-- Witness for C6: on a four-cell empty row a full step of horizontal lava
is unobstructed; on a two-cell row the same step hits the right boundary, so
dripping lava teleports home and bouncing lava inverts its speed. -/
theorem lavaAct_cases_witness :
    lavaAct ⟨0, 0⟩ ⟨1, 1⟩ ⟨2, 0⟩ none 1 (mkLevel (fun _ => 0) ["    "]) =
      ((⟨0, 0⟩ : Vec).plus ((⟨2, 0⟩ : Vec).times 1), ⟨2, 0⟩) ∧
    lavaAct ⟨0, 0⟩ ⟨1, 1⟩ ⟨2, 0⟩ (some ⟨0, 0⟩) 1 (mkLevel (fun _ => 0) ["  "]) =
      (⟨0, 0⟩, ⟨2, 0⟩) ∧
    lavaAct ⟨0, 0⟩ ⟨1, 1⟩ ⟨2, 0⟩ none 1 (mkLevel (fun _ => 0) ["  "]) =
      (⟨0, 0⟩, ⟨-((⟨2, 0⟩ : Vec)).x, -((⟨2, 0⟩ : Vec)).y⟩) := by
  have hv : ((⟨0, 0⟩ : Vec).plus ((⟨2, 0⟩ : Vec).times 1)) = (⟨2, 0⟩ : Vec) := by
    simp [Vec.plus, Vec.times]
  have hnone : obstacleAt (mkLevel (fun _ => 0) ["    "])
      ((⟨0, 0⟩ : Vec).plus ((⟨2, 0⟩ : Vec).times 1)) ⟨1, 1⟩ = none := by
    rw [hv]
    have h := obstacleAt_eq_scanRows (mkLevel (fun _ => 0) ["    "]) ⟨2, 0⟩ ⟨1, 1⟩
      (by show (0 : ℤ) ≤ ⌊(2 : ℚ)⌋; norm_num)
      (by show ⌈(2 : ℚ) + 1⌉ ≤ ((4 : ℕ) : ℤ); norm_num)
      (by show (0 : ℤ) ≤ ⌊(0 : ℚ)⌋; norm_num)
      (by show ⌈(0 : ℚ) + 1⌉ ≤ ((1 : ℕ) : ℤ); norm_num)
    rw [h,
      show (⌊((⟨2, 0⟩ : Vec)).y⌋).toNat = 0 from by show (⌊(0 : ℚ)⌋).toNat = 0; norm_num,
      show (⌈((⟨2, 0⟩ : Vec)).y + ((⟨1, 1⟩ : Vec)).y⌉).toNat = 1 from by
        show (⌈(0 : ℚ) + 1⌉).toNat = 1; norm_num,
      show (⌊((⟨2, 0⟩ : Vec)).x⌋).toNat = 2 from by show (⌊(2 : ℚ)⌋).toNat = 2; rw [show ⌊(2 : ℚ)⌋ = 2 from by norm_num]; rfl,
      show (⌈((⟨2, 0⟩ : Vec)).x + ((⟨1, 1⟩ : Vec)).x⌉).toNat = 3 from by
        show (⌈(2 : ℚ) + 1⌉).toNat = 3; rw [show ⌈(2 : ℚ) + 1⌉ = 3 from by norm_num]; rfl,
      scanRows_eq]
    simp only [scanRow_eq]
    rfl
  have hwall : obstacleAt (mkLevel (fun _ => 0) ["  "])
      ((⟨0, 0⟩ : Vec).plus ((⟨2, 0⟩ : Vec).times 1)) ⟨1, 1⟩ = some Cell.wall := by
    rw [hv]
    exact obstacleAt_wall_of _ _ _
      (Or.inr (Or.inl (by show ((2 : ℕ) : ℤ) < ⌈(2 : ℚ) + 1⌉; norm_num)))
  refine ⟨(lavaAct_cases ⟨0, 0⟩ ⟨1, 1⟩ ⟨2, 0⟩ none 1 (mkLevel (fun _ => 0) ["    "])).1 hnone,
    ((lavaAct_cases ⟨0, 0⟩ ⟨1, 1⟩ ⟨2, 0⟩ (some ⟨0, 0⟩) 1 (mkLevel (fun _ => 0) ["  "])).2
      (by rw [hwall]; simp)).1 ⟨0, 0⟩ rfl,
    ((lavaAct_cases ⟨0, 0⟩ ⟨1, 1⟩ ⟨2, 0⟩ none 1 (mkLevel (fun _ => 0) ["  "])).2
      (by rw [hwall]; simp)).2 rfl⟩

/-
C1: the status write-once claim, refuted and amended, and C3: coin removal.
-/

/-- C1 counterexample: on a level that is already lost, collecting the last
coin overwrites the status with won — the coin branch of playerTouched does
not test the current status. -/
theorem status_write_once_counterexample :
    (playerTouched (mkLevel (fun _ => 0) ["@o"]) Kind.lava none).status =
      some Status.lost ∧
    (playerTouched (playerTouched (mkLevel (fun _ => 0) ["@o"]) Kind.lava none)
        Kind.coin (some 1)).status = some Status.won := by
  decide

/-- C1 (amended): once status is non-null, a playerTouched call leaves it
unchanged except in one case: a coin touch after which no coin remains,
which overwrites the status with won. -/
theorem status_change_once_amended (lv : LevelS) (k : Kind) (a : Option Nat)
    (h : lv.status ≠ none) :
    (playerTouched lv k a).status = lv.status ∨
    (k = Kind.coin ∧ (playerTouched lv k a).actors.any isCoin = false ∧
      (playerTouched lv k a).status = some Status.won) := by
  simp only [playerTouched]
  split_ifs with h1 h2 h3
  · exact absurd h1.2 h
  · left
    rfl
  · right
    exact ⟨h2, Bool.eq_false_iff.mpr h3, rfl⟩
  · left
    rfl

/-- Witness for C1 (amended) at the lost level with its single coin. -/
theorem status_change_once_amended_witness :
    (playerTouched (playerTouched (mkLevel (fun _ => 0) ["@o"]) Kind.lava none)
        Kind.coin (some 1)).status =
      (playerTouched (mkLevel (fun _ => 0) ["@o"]) Kind.lava none).status ∨
    (Kind.coin = Kind.coin ∧
      (playerTouched (playerTouched (mkLevel (fun _ => 0) ["@o"]) Kind.lava none)
          Kind.coin (some 1)).actors.any isCoin = false ∧
      (playerTouched (playerTouched (mkLevel (fun _ => 0) ["@o"]) Kind.lava none)
          Kind.coin (some 1)).status = some Status.won) :=
  status_change_once_amended
    (playerTouched (mkLevel (fun _ => 0) ["@o"]) Kind.lava none)
    Kind.coin (some 1) (by decide)

/-- The coin branch of playerTouched always installs the filtered actor
list, whatever the win test decides. -/
lemma playerTouched_coin_actors (lv : LevelS) (a : Option Nat) :
    (playerTouched lv Kind.coin a).actors =
      lv.actors.filter (fun other => a ≠ some other.id) := by
  simp only [playerTouched]
  rw [if_neg (by simp), if_pos trivial]
  split <;> rfl

/-- The concrete two-actor level used by the C3 witness. -/
def levelPO : LevelS := mkLevel (fun _ => 0) ["@o"]

/-- The coin actor of levelPO. -/
def coinPO : Actor := mkActor 'o' 1 0 1 0

/-- C3: removing a coin actor c (present, under distinct actor identities)
filters exactly c out of the actor list, preserving the relative order of
the survivors; if no coin remains afterwards the status becomes won with
finishDelay 1, and if a coin remains status and finishDelay are unchanged
(in particular still unset when they were unset). -/
theorem coin_removal (lv : LevelS) (c : Actor) (hc : c ∈ lv.actors)
    (_hcoin : isCoin c = true) (hnodup : (lv.actors.map Actor.id).Nodup) :
    ((playerTouched lv Kind.coin (some c.id)).actors).Sublist lv.actors ∧
    c ∉ (playerTouched lv Kind.coin (some c.id)).actors ∧
    (∀ a ∈ lv.actors, a ≠ c → a ∈ (playerTouched lv Kind.coin (some c.id)).actors) ∧
    ((playerTouched lv Kind.coin (some c.id)).actors.any isCoin = false →
      (playerTouched lv Kind.coin (some c.id)).status = some Status.won ∧
      (playerTouched lv Kind.coin (some c.id)).finishDelay = some 1) ∧
    ((playerTouched lv Kind.coin (some c.id)).actors.any isCoin = true →
      (playerTouched lv Kind.coin (some c.id)).status = lv.status ∧
      (playerTouched lv Kind.coin (some c.id)).finishDelay = lv.finishDelay) := by
  have hact := playerTouched_coin_actors lv (some c.id)
  refine ⟨?_, ?_, ?_, ?_, ?_⟩
  · rw [hact]
    exact List.filter_sublist lv.actors
  · rw [hact]
    intro hmem
    have hdec := (List.mem_filter.mp hmem).2
    simp at hdec
  · intro a ha hne
    rw [hact]
    refine List.mem_filter.mpr ⟨ha, ?_⟩
    have hid : c.id ≠ a.id := by
      intro he
      exact hne (List.inj_on_of_nodup_map hnodup ha hc he.symm)
    simp [hid]
  · intro hfalse
    rw [hact] at hfalse
    simp only [playerTouched]
    rw [if_neg (by simp), if_pos trivial, if_pos (by rw [hfalse]; simp)]
    exact ⟨rfl, rfl⟩
  · intro htrue
    rw [hact] at htrue
    simp only [playerTouched]
    rw [if_neg (by simp), if_pos trivial, if_neg (by rw [htrue]; simp)]
    exact ⟨rfl, rfl⟩

/-- Witness for C3 at the concrete level with one player and one coin. -/
theorem coin_removal_witness :
    ((playerTouched levelPO Kind.coin (some coinPO.id)).actors).Sublist levelPO.actors ∧
    coinPO ∉ (playerTouched levelPO Kind.coin (some coinPO.id)).actors ∧
    (∀ a ∈ levelPO.actors, a ≠ coinPO →
      a ∈ (playerTouched levelPO Kind.coin (some coinPO.id)).actors) ∧
    ((playerTouched levelPO Kind.coin (some coinPO.id)).actors.any isCoin = false →
      (playerTouched levelPO Kind.coin (some coinPO.id)).status = some Status.won ∧
      (playerTouched levelPO Kind.coin (some coinPO.id)).finishDelay = some 1) ∧
    ((playerTouched levelPO Kind.coin (some coinPO.id)).actors.any isCoin = true →
      (playerTouched levelPO Kind.coin (some coinPO.id)).status = levelPO.status ∧
      (playerTouched levelPO Kind.coin (some coinPO.id)).finishDelay =
        levelPO.finishDelay) :=
  coin_removal levelPO coinPO
    (by
      rw [show levelPO.actors = [mkActor '@' 0 0 0 0, mkActor 'o' 1 0 1 0] from rfl]
      exact List.mem_cons_of_mem _ (List.mem_cons_self _ _))
    (by decide)
    (by decide)

/-
C8: construction from a plan without a player spawn.
-/

/-- C8 counterexample: constructing from a plan with no player character
does not fail — the constructor performs no validation and returns a level
whose player reference is undefined (none). -/
theorem level_no_at_counterexample :
    (mkLevel (fun _ => 0) [" "]).player = none ∧
    (mkLevel (fun _ => 0) [" "]).width = 1 ∧
    (mkLevel (fun _ => 0) [" "]).height = 1 ∧
    (mkLevel (fun _ => 0) [" "]).status = none := by
  exact ⟨rfl, rfl, rfl, rfl⟩

/-- Actors constructed from a non-player character are never player-typed. -/
lemma isPlayer_mkActor_of_ne (ch : Char) (x y i : Nat) (w : ℚ) (h : ch ≠ '@') :
    isPlayer (mkActor ch x y i w) = false := by
  rw [mkActor, if_neg h]
  split_ifs <;> rfl

/-- C8 (amended): constructing a Level from a plan containing no player
character succeeds and yields a level whose player reference is undefined
(none): the filter for player-typed actors finds nothing. -/
theorem mkLevel_no_at_player_none (wob : Nat → ℚ) (plan : List String)
    (h : ∀ line ∈ plan, '@' ∉ line.toList) :
    (mkLevel wob plan).player = none := by
  have hchar : ∀ y x : Nat, planChar plan y x ≠ '@' := by
    intro y x
    unfold planChar
    by_cases hy : y < plan.length
    · have hline : plan.getD y "" ∈ plan := by
        rw [List.getD_eq_getElem plan "" hy]
        exact List.getElem_mem hy
      have hnot := h (plan.getD y "") hline
      by_cases hx : x < (plan.getD y "").toList.length
      · rw [List.getD_eq_getElem _ ' ' hx]
        intro he
        exact hnot (he ▸ List.getElem_mem hx)
      · rw [List.getD_eq_default _ ' ' (le_of_not_lt hx)]
        decide
    · rw [List.getD_eq_default plan "" (le_of_not_lt hy),
        show ("" : String).toList = [] from rfl, List.getD_nil]
      decide
  have hall : ∀ p ∈ (planCoords plan (plan.headD "").length).enum,
      isPlayer (mkActor p.2.1 p.2.2.1 p.2.2.2 p.1 (wob p.1)) = false := by
    intro p hp
    obtain ⟨i, ch, x, y⟩ := p
    have hmem : (ch, x, y) ∈ planCoords plan (plan.headD "").length :=
      List.snd_mem_of_mem_enum hp
    rcases List.mem_flatMap.mp hmem with ⟨y', _hy, hx⟩
    rcases List.mem_filterMap.mp hx with ⟨x', _hx, hcond⟩
    by_cases hic : isActorChar (planChar plan y' x') = true
    · rw [if_pos hic] at hcond
      obtain ⟨h1, h2, h3⟩ : planChar plan y' x' = ch ∧ x' = x ∧ y' = y := by
        simpa using hcond
      exact isPlayer_mkActor_of_ne ch x y i (wob i) (h1 ▸ hchar y' x')
    · rw [if_neg hic] at hcond
      simp at hcond
  have hfil : (((planCoords plan (plan.headD "").length).enum.map
      (fun p => mkActor p.2.1 p.2.2.1 p.2.2.2 p.1 (wob p.1))).filter isPlayer) = [] := by
    rw [List.filter_eq_nil_iff]
    intro a ha
    rcases List.mem_map.mp ha with ⟨p, hp, rfl⟩
    simp [hall p hp]
  simp only [mkLevel]
  rw [hfil]
  rfl

/-- Witness for C8 (amended) at a concrete player-free plan. -/
theorem mkLevel_no_at_player_none_witness :
    (mkLevel (fun _ => 1) ["x!"]).player = none :=
  mkLevel_no_at_player_none (fun _ => 1) ["x!"] (by decide)

/-
C9: object-identity model for Vectors. JavaScript Vectors are heap objects;
to talk about in-place mutation versus wholesale replacement we refine the
embedding with an explicit store of Vectors addressed by index. A field
assignment (this.speed.x = ...) writes through the existing address; a
reference rebinding (this.pos = newPos) points the object at a fresh one.
-/

/-- A store of Vector objects, addressed by list index. -/
abbrev Store : Type := List Vec

/-- Allocating a new Vector returns the grown store and the fresh address. -/
def allocV (st : Store) (v : Vec) : Store × Nat := (st ++ [v], st.length)

/-- Reading the Vector at an address. -/
def readV (st : Store) (a : Nat) : Vec := st.getD a ⟨0, 0⟩

/-- Overwriting the Vector at an address in place. -/
def writeV (st : Store) (a : Nat) (v : Vec) : Store := st.set a v

/-- Vector.prototype.plus at the store level: reads both operands and
allocates a fresh result Vector. -/
def plusH (st : Store) (a b : Nat) : Store × Nat :=
  allocV st ((readV st a).plus (readV st b))

/-- Vector.prototype.times at the store level: reads the operand and
allocates a fresh result Vector. -/
def timesH (st : Store) (a : Nat) (factor : ℚ) : Store × Nat :=
  allocV st ((readV st a).times factor)

/-- The player's three Vector-valued fields as store addresses. -/
structure PlayerRef where
  posA : Nat
  sizeA : Nat
  speedA : Nat
deriving DecidableEq, Repr

/-- Player.prototype.moveX at the store level, following the source line by
line: this.speed.x is assigned in place (zeroed, then decremented and or
incremented per held key), the motion Vector and the tentative position are
fresh allocations, and on the unobstructed path this.pos is rebound to the
fresh position address. -/
def moveXH (st : Store) (p : PlayerRef) (step : ℚ) (lv : LevelS) (keys : Keys) :
    Store × PlayerRef × LevelS :=
  let st1 := writeV st p.speedA ⟨0, (readV st p.speedA).y⟩
  let st2 := if keys.left then
      writeV st1 p.speedA
        ⟨(readV st1 p.speedA).x - playerXSpeed, (readV st1 p.speedA).y⟩
    else st1
  let st3 := if keys.right then
      writeV st2 p.speedA
        ⟨(readV st2 p.speedA).x + playerXSpeed, (readV st2 p.speedA).y⟩
    else st2
  let r4 := allocV st3 ⟨(readV st3 p.speedA).x * step, 0⟩
  let r5 := plusH r4.1 p.posA r4.2
  match obstacleAt lv (readV r5.1 r5.2) (readV r5.1 p.sizeA) with
  | some ob => (r5.1, p, playerTouched lv (kindOfCell ob) none)
  | none => (r5.1, { p with posA := r5.2 }, lv)

lemma writeV_length (st : Store) (i : Nat) (v : Vec) :
    (writeV st i v).length = st.length :=
  List.length_set st i v

lemma readV_append (st l : Store) (i : Nat) (h : i < st.length) :
    readV (st ++ l) i = readV st i :=
  List.getD_append st l ⟨0, 0⟩ i h

lemma readV_writeV_self (st : Store) (i : Nat) (v : Vec) (h : i < st.length) :
    readV (writeV st i v) i = v := by
  simp [readV, writeV, List.getD_eq_getElem?_getD, List.getElem?_set_self h]

/-- C9 (amended): Vector.prototype.plus and times allocate fresh Vectors and
leave every existing store entry unchanged, but Player.prototype.moveX does
not replace the speed Vector wholesale: the player keeps the same speed
address and the new horizontal speed is written into that existing cell in
place (moveY and the losing animation in act mutate fields the same way). -/
theorem vector_fresh_and_moveX_in_place (st : Store) (a b : Nat) (p : PlayerRef)
    (step : ℚ) (lv : LevelS) (keys : Keys) (hp : p.speedA < st.length) :
    (∀ i, i < st.length → readV (plusH st a b).1 i = readV st i) ∧
    (plusH st a b).2 = st.length ∧
    (∀ i, i < st.length → readV (timesH st a step).1 i = readV st i) ∧
    (timesH st a step).2 = st.length ∧
    (moveXH st p step lv keys).2.1.speedA = p.speedA ∧
    readV (moveXH st p step lv keys).1 p.speedA =
      ⟨(if keys.right then (if keys.left then 0 - playerXSpeed else 0) + playerXSpeed
        else if keys.left then 0 - playerXSpeed else 0),
        (readV st p.speedA).y⟩ := by
  obtain ⟨kl, kr, ku⟩ := keys
  refine ⟨?_, rfl, ?_, rfl, ?_, ?_⟩
  · intro i hi
    simp only [plusH, allocV]
    exact readV_append st _ i hi
  · intro i hi
    simp only [timesH, allocV]
    exact readV_append st _ i hi
  · simp only [moveXH, plusH, allocV]
    split <;> rfl
  · cases kl <;> cases kr <;>
      (simp only [moveXH, plusH, allocV]
       split <;>
         simp [readV_append, readV_writeV_self, writeV_length, hp])

/-- C9 counterexample: running moveX with right held changes the content of
the pre-existing speed cell (address 2) in place: the player still points at
address 2 but the stored Vector differs afterwards, refuting the claim that
no operation mutates an existing Vector and that updates replace Vectors
wholesale. -/
theorem vector_in_place_mutation_counterexample :
    2 < ([⟨1, 0⟩, ⟨1, 1⟩, ⟨3, 5⟩] : Store).length ∧
    (moveXH [⟨1, 0⟩, ⟨1, 1⟩, ⟨3, 5⟩] ⟨0, 1, 2⟩ 1 (mkLevel (fun _ => 0) ["          "])
        ⟨false, true, false⟩).2.1.speedA = 2 ∧
    readV (moveXH [⟨1, 0⟩, ⟨1, 1⟩, ⟨3, 5⟩] ⟨0, 1, 2⟩ 1 (mkLevel (fun _ => 0) ["          "])
        ⟨false, true, false⟩).1 2 ≠
      readV [⟨1, 0⟩, ⟨1, 1⟩, ⟨3, 5⟩] 2 := by
  have hst : readV ([⟨1, 0⟩, ⟨1, 1⟩, ⟨3, 5⟩] : Store) 2 = ⟨3, 5⟩ := rfl
  refine ⟨by decide, ?_, ?_⟩
  · simp only [moveXH, plusH, allocV]
    split <;> rfl
  · simp only [moveXH, plusH, allocV]
    split <;>
      (simp [readV_append, readV_writeV_self, writeV_length, hst, Vec.mk.injEq]
       norm_num [playerXSpeed])

/-- Witness for C9 (amended) at the concrete three-cell store. -/
theorem vector_fresh_and_moveX_in_place_witness :
    (∀ i, i < ([⟨1, 0⟩, ⟨1, 1⟩, ⟨3, 5⟩] : Store).length →
      readV (plusH [⟨1, 0⟩, ⟨1, 1⟩, ⟨3, 5⟩] 0 1).1 i = readV [⟨1, 0⟩, ⟨1, 1⟩, ⟨3, 5⟩] i) ∧
    (plusH [⟨1, 0⟩, ⟨1, 1⟩, ⟨3, 5⟩] 0 1).2 = ([⟨1, 0⟩, ⟨1, 1⟩, ⟨3, 5⟩] : Store).length ∧
    (∀ i, i < ([⟨1, 0⟩, ⟨1, 1⟩, ⟨3, 5⟩] : Store).length →
      readV (timesH [⟨1, 0⟩, ⟨1, 1⟩, ⟨3, 5⟩] 0 1).1 i = readV [⟨1, 0⟩, ⟨1, 1⟩, ⟨3, 5⟩] i) ∧
    (timesH [⟨1, 0⟩, ⟨1, 1⟩, ⟨3, 5⟩] 0 1).2 = ([⟨1, 0⟩, ⟨1, 1⟩, ⟨3, 5⟩] : Store).length ∧
    (moveXH [⟨1, 0⟩, ⟨1, 1⟩, ⟨3, 5⟩] ⟨0, 1, 2⟩ 1 (mkLevel (fun _ => 0) ["          "])
        ⟨false, true, false⟩).2.1.speedA = (⟨0, 1, 2⟩ : PlayerRef).speedA ∧
    readV (moveXH [⟨1, 0⟩, ⟨1, 1⟩, ⟨3, 5⟩] ⟨0, 1, 2⟩ 1 (mkLevel (fun _ => 0) ["          "])
        ⟨false, true, false⟩).1 (⟨0, 1, 2⟩ : PlayerRef).speedA =
      ⟨(if (⟨false, true, false⟩ : Keys).right then
          (if (⟨false, true, false⟩ : Keys).left then 0 - playerXSpeed else 0) + playerXSpeed
        else if (⟨false, true, false⟩ : Keys).left then 0 - playerXSpeed else 0),
        (readV [⟨1, 0⟩, ⟨1, 1⟩, ⟨3, 5⟩] (⟨0, 1, 2⟩ : PlayerRef).speedA).y⟩ :=
  vector_fresh_and_moveX_in_place [⟨1, 0⟩, ⟨1, 1⟩, ⟨3, 5⟩] 0 1 ⟨0, 1, 2⟩ 1
    (mkLevel (fun _ => 0) ["          "]) ⟨false, true, false⟩ (by decide)
